import Mathlib

/-!
Shallow embedding of the term-project-backend repository (Express/Mongoose
game-distribution service) and verification of its specification claims.

JavaScript numbers are modelled as rationals (ℚ); Mongo documents become
Lean structures; the stateful handlers become pure state-passing functions
returning Except for the error responses. Sources:

* src/unnamed/part_001 (controllers/productController.js):
  updateWeightedProductRating, getProductById, deleteProduct, createProduct,
  updateProduct, addOrUpdateProductReview, playGame, getDetailedProducts,
  getProductComments.
* src/server.js (controllers/userController.js half): deleteUser and its
  local copy of updateWeightedProductRating (same computation).
* src/models/Product.js: productSchema and reviewSchema (both the rating and
  the comment field of a review are marked required, which matters below).
-/

namespace GameStore

/-- One entry of the per-user playtime ledger (userSchema playTime array):
a game id and the accumulated minutes for that game. -/
structure PlayEntry where
  product : Nat
  time : ℚ
deriving DecidableEq, Repr

/-- A user document: identity, display name and the playtime ledger. -/
structure User where
  id : Nat
  name : String
  playTime : List PlayEntry
deriving DecidableEq, Repr

/-- A review subdocument (reviewSchema): authoring user id, denormalized
display name, and the rating/comment fields. The controller stores them as
undefined when not provided, hence Option. -/
structure Review where
  user : Nat
  name : String
  rating : Option ℚ
  comment : Option String
deriving DecidableEq, Repr

/-- A product (game) document, productSchema. -/
structure Product where
  id : Nat
  user : Nat
  name : String
  image : String
  brand : String
  category : List String
  description : String
  reviews : List Review
  rating : ℚ
  numReviews : Nat
  disableRating : Bool
  disableCommenting : Bool
deriving DecidableEq, Repr

/-- The JS idiom user.playTime.find(pt => pt.product.toString() === productId):
first ledger entry of the user for the given game. -/
def findPlay (u : User) (pid : Nat) : Option PlayEntry :=
  u.playTime.find? (fun pt => pt.product == pid)

/-- Accumulated time of a user on a game, 0 when no ledger entry exists
(playTimeData ? playTimeData.time : 0). -/
def timeFor (u : User) (pid : Nat) : ℚ :=
  match findPlay u pid with
  | some pt => pt.time
  | none => 0

/-- The query User.find(playTime.product: productId): all users holding a
ledger entry for the game. -/
def usersWhoPlayed (users : List User) (pid : Nat) : List User :=
  users.filter (fun u => u.playTime.any (fun pt => pt.product == pid))

/-- First loop of updateWeightedProductRating: totalPlayTime += gamePlayData.time
over the users who played the game. -/
def totalPlayTimeFor (users : List User) (pid : Nat) : ℚ :=
  (usersWhoPlayed users pid).foldl (fun acc u =>
    match findPlay u pid with
    | some pt => acc + pt.time
    | none => acc) 0

/-- Second loop of updateWeightedProductRating: for each review, look the
author up among the users who played; if the author has positive time and the
review a positive rating, add time * rating to weightedSum. A review without
a rating compares as undefined > 0, i.e. false. -/
def weightedSumFor (users : List User) (pid : Nat) (reviews : List Review) : ℚ :=
  reviews.foldl (fun acc review =>
    match (usersWhoPlayed users pid).find? (fun u => u.id == review.user) with
    | some reviewingUser =>
      match findPlay reviewingUser pid with
      | some pt =>
        match review.rating with
        | some x => if 0 < pt.time ∧ 0 < x then acc + pt.time * x else acc
        | none => acc
      | none => acc
    | none => acc) 0

/-- updateWeightedProductRating (part_001 lines 7-59; the copy in server.js
lines 264-314 performs the same computation): write the playtime-weighted
rating onto the product. Persistence is modelled by returning the updated
product; the save of the rating field cannot fail schema validation in any
state reachable through the review endpoint, so it is not reified here. -/
def updateWeightedProductRating (users : List User) (p : Product) : Product :=
  if (usersWhoPlayed users p.id).isEmpty then
    { p with rating := 0 }
  else
    let totalPlayTime := totalPlayTimeFor users p.id
    let weightedSum := weightedSumFor users p.id p.reviews
    { p with rating := if 0 < totalPlayTime then weightedSum / totalPlayTime else 0 }

/-- Written from the SPEC wording (refinement comparison for C1): the
contribution of one player u to the numerator. It is time_u * rating_u when
u has time_u > 0 and a review of the game with a positive rating, and 0
otherwise. -/
def specUserContrib (reviews : List Review) (pid : Nat) (u : User) : ℚ :=
  match reviews.find? (fun r => r.user == u.id) with
  | some r =>
    match r.rating with
    | some x => if 0 < timeFor u pid ∧ 0 < x then timeFor u pid * x else 0
    | none => 0
  | none => 0

/-- Written from the SPEC wording: the numerator Σ(time_u * rating_u) over
users who have a playtime entry for the game. -/
def specNumerator (users : List User) (p : Product) : ℚ :=
  ((usersWhoPlayed users p.id).map (specUserContrib p.reviews p.id)).sum

/-- Written from the SPEC wording: the denominator Σ(time_u) over users who
have a playtime entry for the game. -/
def specTotal (users : List User) (p : Product) : ℚ :=
  ((usersWhoPlayed users p.id).map (fun u => timeFor u p.id)).sum

/-- Written from the SPEC wording: the derived rating
Σ(time_u * rating_u) / Σ(time_u), and 0 when no user has played the game or
the total playtime is 0. -/
def specWeightedRating (users : List User) (p : Product) : ℚ :=
  if usersWhoPlayed users p.id = [] ∨ specTotal users p = 0 then 0
  else specNumerator users p / specTotal users p

/-- Error responses of the review endpoint, in the order the handler checks
them. insufficientPlaytime carries the requiredPlayTime constant (60) that is
interpolated into the user-facing message. serverError is the 500 produced
when product.save() rejects (mongoose schema validation). -/
inductive ReviewError where
  | ratingOrCommentRequired
  | invalidRating
  | insufficientPlaytime (requiredPlayTime : Nat)
  | ratingDisabled
  | commentingDisabled
  | serverError
deriving DecidableEq, Repr

/-- Mongoose validation run by product.save(): reviewSchema marks both the
rating and the comment field required, so a review subdocument missing either one makes
the whole save reject (the controller catch then answers 500); for a String
field the required validator also rejects the empty string. -/
def reviewSaveOk (p : Product) : Bool :=
  p.reviews.all (fun r => r.rating.isSome &&
    (match r.comment with
     | some c => !c.isEmpty
     | none => false))

/-- The review array mutation of addOrUpdateProductReview: find the review of
the user (findIndex); when found, overwrite only the provided fields and
always refresh the stored display name; when absent, push a new review at the
end. The Bool reports whether an existing review was found
(reviewIndex > -1), which selects the message and status code. -/
def upsertReviewList (uid : Nat) (name : String) (rating : Option ℚ)
    (comment : Option String) : List Review → List Review × Bool
  | [] => ([{ user := uid, name := name, rating := rating, comment := comment }], false)
  | r :: rest =>
    if r.user == uid then
      ({ r with
          rating := match rating with | some x => some x | none => r.rating,
          comment := match comment with | some c => some c | none => r.comment,
          name := name } :: rest, true)
    else
      let step := upsertReviewList uid name rating comment rest
      (r :: step.1, step.2)

/-- addOrUpdateProductReview (part_001 lines 341-428) after the two findById
lookups succeeded: validation, playtime gate, admin toggles, upsert, save.
On success returns the updated product together with the response message
(Review added gives status 201, Review updated gives 200). -/
def addOrUpdateProductReview (user : User) (p : Product) (rating : Option ℚ)
    (comment : Option String) : Except ReviewError (Product × String) :=
  if rating = none ∧ comment = none then
    .error .ratingOrCommentRequired
  else if match rating with | some x => decide (x < 1 ∨ 5 < x) | none => false then
    .error .invalidRating
  else
    let requiredPlayTime : Nat := 60
    if timeFor user p.id < (requiredPlayTime : ℚ) then
      .error (.insufficientPlaytime requiredPlayTime)
    else if rating.isSome && p.disableRating then
      .error .ratingDisabled
    else if comment.isSome && p.disableCommenting then
      .error .commentingDisabled
    else
      let step := upsertReviewList user.id user.name rating comment p.reviews
      let p1 :=
        if step.2 then { p with reviews := step.1 }
        else { p with reviews := step.1, numReviews := step.1.length }
      if reviewSaveOk p1 then
        .ok (p1, if step.2 then "Review updated" else "Review added")
      else
        .error .serverError

/-- The ledger mutation of playGame: increment the first existing entry for
the game (findIndex then time += playTime), otherwise push a new entry. -/
def addPlayTime (pid : Nat) (m : ℚ) : List PlayEntry → List PlayEntry
  | [] => [{ product := pid, time := m }]
  | pt :: rest =>
    if pt.product == pid then { pt with time := pt.time + m } :: rest
    else pt :: addPlayTime pid m rest

/-- playGame (part_001 lines 433-492) after the two findById lookups
succeeded: Number(time) must be truthy and positive (NaN and 0 are falsy),
then the ledger entry is created or incremented and the handler re-reads and
returns the updated cumulative time for this game. The fire-and-forget
rating recomputation only touches product.rating and is modelled separately
by updateWeightedProductRating. -/
def playGame (u : User) (pid : Nat) (time : ℚ) : Except String (User × ℚ) :=
  if time ≤ 0 then
    .error "Valid playtime value is required"
  else
    let u1 := { u with playTime := addPlayTime pid time u.playTime }
    .ok (u1, timeFor u1 pid)

/-- A sequence of play calls of one user for one game; stops at the first
rejected call. -/
def playSeq (u : User) (pid : Nat) : List ℚ → Except String User
  | [] => .ok u
  | m :: ms =>
    match playGame u pid m with
    | .ok x => playSeq x.1 pid ms
    | .error e => .error e

/-- createProduct (part_001 lines 177-247): category must be an array of 1-5
genres; the new product starts with rating 0, numReviews 0, empty review list
and the toggles defaulted to false when not provided. The image format
validation only rejects malformed base64 payloads without touching any
modelled field and is elided. -/
def createProduct (ownerId pid : Nat) (name description image brand : String)
    (category : List String) (disableRating disableCommenting : Option Bool) :
    Except String Product :=
  if ¬ (1 ≤ category.length ∧ category.length ≤ 5) then
    .error "Category must be an array with 1-5 genres"
  else
    .ok { id := pid, user := ownerId, name := name, image := image,
          brand := brand, category := category, description := description,
          reviews := [], rating := 0, numReviews := 0,
          disableRating := disableRating.getD false,
          disableCommenting := disableCommenting.getD false }

/-- The otherFields rest object of updateProduct: every body key that was not
destructured is written verbatim onto the product (product[key] = value),
including the stored aggregates numReviews, reviews and rating; keys outside
the modelled schema land in the schemaless remainder and touch no modelled
field. -/
inductive ExtraAssign where
  | setNumReviews (n : Nat)
  | setReviews (rs : List Review)
  | setRating (x : ℚ)
  | setOther (key value : String)
deriving DecidableEq, Repr

/-- Application of one otherFields assignment. -/
def applyExtra (p : Product) : ExtraAssign → Product
  | .setNumReviews n => { p with numReviews := n }
  | .setReviews rs => { p with reviews := rs }
  | .setRating x => { p with rating := x }
  | .setOther _ _ => p

/-- One express-validator check(field).not().isEmpty() route rule: the body
field must be present and non-empty. -/
def providedNonEmpty : Option String → Bool
  | some s => !s.isEmpty
  | none => false

/-- updateProduct (part_001 lines 252-336): the handler first reads
validationResult (lines 254-257), and the PUT route (productRoutes.js lines
62-73) requires name, description, image and brand to be present and
non-empty, so a body missing any of them is answered 400 before anything is
touched (the optional route rule for category coincides with the handler
check below); then validate category when provided, overwrite the main
fields falling back to the stored value when absent (name or product.name),
set the toggles when provided, and run the otherFields loop. The image
format validation is elided as in createProduct. -/
def updateProduct (p : Product) (name description image brand : Option String)
    (category : Option (List String)) (disableRating disableCommenting : Option Bool)
    (otherFields : List ExtraAssign) : Except String Product :=
  if !(providedNonEmpty name && providedNonEmpty description &&
      providedNonEmpty image && providedNonEmpty brand) then
    .error "Validation failed"
  else if match category with
     | some c => decide (¬ (1 ≤ c.length ∧ c.length ≤ 5))
     | none => false then
    .error "Category must be an array with 1-5 genres"
  else
    let p1 := { p with
      name := name.getD p.name,
      description := description.getD p.description,
      image := image.getD p.image,
      brand := brand.getD p.brand,
      category := category.getD p.category,
      disableRating := disableRating.getD p.disableRating,
      disableCommenting := disableCommenting.getD p.disableCommenting }
    .ok (otherFields.foldl applyExtra p1)

/-- The persistent store: the two collections. -/
structure DB where
  users : List User
  products : List Product
deriving DecidableEq, Repr

/-- The per-product body of the deleteUser loop (server.js lines 236-250):
drop the reviews of the user, set numReviews to the new length, save, then
await updateWeightedProductRating for the product. The users passed to the
recomputation still contain the user being deleted, because the user record
is only removed after the loop. -/
def cleanProductForUser (users : List User) (uid : Nat) (p : Product) : Product :=
  let reviews1 := p.reviews.filter (fun r => r.user != uid)
  updateWeightedProductRating users { p with reviews := reviews1, numReviews := reviews1.length }

/-- deleteUser (server.js lines 221-260): none models the 404 on an unknown
user id; otherwise every product holding a review of the user is cleaned and
recomputed while the user still exists, the user record is removed last, and
the response is a fixed message. -/
def deleteUser (db : DB) (uid : Nat) : Option (DB × String) :=
  match db.users.find? (fun u => u.id == uid) with
  | none => none
  | some _ =>
    let products1 := db.products.map (fun p =>
      if p.reviews.any (fun r => r.user == uid) then cleanProductForUser db.users uid p else p)
    let users1 := db.users.filter (fun u => u.id != uid)
    some ({ users := users1, products := products1 },
      "User removed successfully and all associated data cleaned up")

/-- The deleteProduct response (part_001 lines 164-167): message plus the
number of users whose ledger was touched. -/
structure DeleteProductResp where
  message : String
  affectedUsers : Nat
deriving DecidableEq, Repr

/-- deleteProduct (part_001 lines 136-172): none models the 404 on an
unknown product id; otherwise every user holding a ledger entry for the game
has that entry filtered out and saved, the product is removed afterwards, and
the response reports how many users were affected. -/
def deleteProduct (db : DB) (pid : Nat) : Option (DB × DeleteProductResp) :=
  match db.products.find? (fun p => p.id == pid) with
  | none => none
  | some _ =>
    let affected := db.users.filter (fun u => u.playTime.any (fun pt => pt.product == pid))
    let users1 := db.users.map (fun u =>
      if u.playTime.any (fun pt => pt.product == pid) then
        { u with playTime := u.playTime.filter (fun pt => pt.product != pid) }
      else u)
    let products1 := db.products.filter (fun p => p.id != pid)
    some ({ users := users1, products := products1 },
      { message := "Product removed successfully and all associated user data cleaned up",
        affectedUsers := affected.length })

/-- Model of the stable JS Array.prototype.sort with the comparator
(a, b) => key(b) - key(a), i.e. sorting by a rational key in descending
order. -/
def sortByKeyDesc {α : Type} (key : α → ℚ) (l : List α) : List α :=
  @List.insertionSort α (fun a b => key b ≤ key a)
    (fun a b => inferInstanceAs (Decidable (key b ≤ key a))) l

/-- The playtimeMap of getProductById (part_001 lines 103-113): fetch the
users that reviewed the product and hold a ledger entry for it, then reduce
them into a lookup object userId to playtime (later assignments overwrite
earlier ones, as JS object keys do). -/
def byIdPlaytimeMap (users : List User) (p : Product) : Nat → Option ℚ :=
  (users.filter (fun u =>
      (p.reviews.map Review.user).contains u.id && (findPlay u p.id).isSome)).foldl
    (fun m u => fun k => if k == u.id then some (timeFor u p.id) else m k)
    (fun _ => none)

/-- getProductById (part_001 lines 93-131): the product is returned with its
reviews sorted by the playtimeMap value of the reviewing user, missing keys
read as 0 (playtimeMap[id] or 0), descending. -/
def getProductById (users : List User) (p : Product) : Product :=
  { p with reviews :=
      sortByKeyDesc (fun r => (byIdPlaytimeMap users p r.user).getD 0) p.reviews }

/-- The userPlaytimeMap shared by getProductComments (part_001 lines 591-597)
and getDetailedProducts (lines 518-524): reduce the users who played the game
into a lookup object userId to playtime. -/
def playersPlaytimeMap (users : List User) (pid : Nat) : Nat → Option ℚ :=
  (usersWhoPlayed users pid).foldl
    (fun m u =>
      match findPlay u pid with
      | some pt => fun k => if k == u.id then some pt.time else m k
      | none => m)
    (fun _ => none)

/-- One review as projected by getProductComments and getDetailedProducts:
the populated author, the review fields and the userPlayTime attached for the
sort. -/
structure ReviewView where
  userId : Nat
  userName : String
  rating : Option ℚ
  comment : Option String
  userPlayTime : ℚ
deriving DecidableEq, Repr

/-- The shared map-then-sort of getProductComments (part_001 lines 600-612)
and getDetailedProducts (lines 527-539): attach
userPlaytimeMap[review.user] or 0 to every review and sort by it,
descending. -/
def reviewsWithPlaytime (users : List User) (p : Product) : List ReviewView :=
  let m := playersPlaytimeMap users p.id
  sortByKeyDesc (fun v => v.userPlayTime)
    (p.reviews.map (fun r =>
      { userId := r.user,
        userName := (users.find? (fun u => u.id == r.user)).elim "" User.name,
        rating := r.rating,
        comment := r.comment,
        userPlayTime := (m r.user).getD 0 }))

/-- Response shape of getProductComments (part_001 lines 614-618). -/
structure CommentsResp where
  gameId : Nat
  gameName : String
  comments : List ReviewView
deriving DecidableEq, Repr

/-- getProductComments (part_001 lines 578-623) after the findById lookup
succeeded. -/
def getProductComments (users : List User) (p : Product) : CommentsResp :=
  { gameId := p.id, gameName := p.name, comments := reviewsWithPlaytime users p }

/-- One element of the getDetailedProducts response; the passthrough
metadata fields (image, brand, category, description, toggles and the
schemaless extras) are elided, they are copied verbatim. -/
structure DetailedView where
  id : Nat
  name : String
  playTime : ℚ
  rating : ℚ
  numReviews : Nat
  reviews : List ReviewView
deriving DecidableEq, Repr

/-- getDetailedProducts (part_001 lines 497-573): every product is projected
with its total playtime (same loop as the aggregator denominator) and its
reviews sorted by reviewer playtime. -/
def getDetailedProducts (users : List User) (products : List Product) : List DetailedView :=
  products.map (fun p =>
    { id := p.id, name := p.name,
      playTime := totalPlayTimeFor users p.id,
      rating := p.rating, numReviews := p.numReviews,
      reviews := reviewsWithPlaytime users p })

/-- Written from the SPEC wording (for C10): the accumulated playtime of a
given user on a given game, reading 0 for a user with no ledger entry (or an
unknown user id). -/
def playtimeOf (users : List User) (pid uid : Nat) : ℚ :=
  match users.find? (fun u => u.id == uid) with
  | some u => timeFor u pid
  | none => 0

/-! Helper lemmas about the aggregator. -/

/-- The summand contributed by one review inside the weightedSum loop, as a
function of the list of users who played. -/
def codeContrib (players : List User) (pid : Nat) (review : Review) : ℚ :=
  match players.find? (fun u => u.id == review.user) with
  | some reviewingUser =>
    match findPlay reviewingUser pid with
    | some pt =>
      match review.rating with
      | some x => if 0 < pt.time ∧ 0 < x then pt.time * x else 0
      | none => 0
    | none => 0
  | none => 0

/-- The contribution of a review r at a player u, expressed through timeFor. -/
def contribAt (pid : Nat) (u : User) (r : Review) : ℚ :=
  match r.rating with
  | some x => if 0 < timeFor u pid ∧ 0 < x then timeFor u pid * x else 0
  | none => 0

theorem foldl_time_eq (pid : Nat) :
    ∀ (l : List User) (c : ℚ),
      (l.foldl (fun acc u =>
        match findPlay u pid with
        | some pt => acc + pt.time
        | none => acc) c)
      = c + (l.map (fun u => timeFor u pid)).sum := by
  intro l
  induction l with
  | nil => intro c; simp
  | cons u rest ih =>
    intro c
    cases h : findPlay u pid with
    | some pt =>
      simp only [List.foldl_cons, h, ih, List.map_cons, List.sum_cons, timeFor]
      ring
    | none =>
      simp only [List.foldl_cons, h, ih, List.map_cons, List.sum_cons, timeFor]
      ring

theorem totalPlayTimeFor_eq_spec (users : List User) (p : Product) :
    totalPlayTimeFor users p.id = specTotal users p := by
  unfold totalPlayTimeFor specTotal
  rw [foldl_time_eq]
  ring

theorem weightedStep_eq (players : List User) (pid : Nat) (acc : ℚ) (review : Review) :
    (match players.find? (fun u => u.id == review.user) with
      | some reviewingUser =>
        match findPlay reviewingUser pid with
        | some pt =>
          match review.rating with
          | some x => if 0 < pt.time ∧ 0 < x then acc + pt.time * x else acc
          | none => acc
        | none => acc
      | none => acc)
    = acc + codeContrib players pid review := by
  unfold codeContrib
  cases h1 : players.find? (fun u => u.id == review.user) with
  | none => simp [h1]
  | some ru =>
    cases h2 : findPlay ru pid with
    | none => simp [h1, h2]
    | some pt =>
      cases h3 : review.rating with
      | none => simp [h1, h2, h3]
      | some x =>
        by_cases hc : 0 < pt.time ∧ 0 < x
        · simp [h1, h2, h3, hc]
        · simp [h1, h2, h3, hc]

theorem weightedSumFor_eq_sum (users : List User) (pid : Nat) :
    ∀ (reviews : List Review) (c : ℚ),
      (reviews.foldl (fun acc review =>
        match (usersWhoPlayed users pid).find? (fun u => u.id == review.user) with
        | some reviewingUser =>
          match findPlay reviewingUser pid with
          | some pt =>
            match review.rating with
            | some x => if 0 < pt.time ∧ 0 < x then acc + pt.time * x else acc
            | none => acc
          | none => acc
        | none => acc) c)
      = c + (reviews.map (codeContrib (usersWhoPlayed users pid) pid)).sum := by
  intro reviews
  induction reviews with
  | nil => intro c; simp
  | cons r rest ih =>
    intro c
    simp only [List.foldl_cons, List.map_cons, List.sum_cons]
    rw [weightedStep_eq, ih]
    ring

theorem weightedSumFor_eq (users : List User) (pid : Nat) (reviews : List Review) :
    weightedSumFor users pid reviews
      = (reviews.map (codeContrib (usersWhoPlayed users pid) pid)).sum := by
  unfold weightedSumFor
  rw [weightedSumFor_eq_sum]
  ring

theorem codeContrib_eq_find (players : List User) (pid : Nat) (r : Review) :
    codeContrib players pid r
      = (match players.find? (fun u => u.id == r.user) with
          | some u => contribAt pid u r
          | none => 0) := by
  cases hf : players.find? (fun u => u.id == r.user) with
  | none => simp [codeContrib, hf]
  | some u =>
    cases h : findPlay u pid with
    | some pt =>
      have ht : timeFor u pid = pt.time := by simp [timeFor, h]
      cases hr : r.rating with
      | none => simp [codeContrib, contribAt, hf, h, hr]
      | some x => simp [codeContrib, contribAt, hf, h, hr, ht]
    | none =>
      have ht : timeFor u pid = 0 := by simp [timeFor, h]
      cases hr : r.rating with
      | none => simp [codeContrib, contribAt, hf, h, hr]
      | some x => simp [codeContrib, contribAt, hf, h, hr, ht]

theorem sum_indicator_eq_find (k : Nat) (h : User → ℚ) :
    ∀ (players : List User), (players.map User.id).Nodup →
      (players.map (fun u => if u.id = k then h u else 0)).sum
        = (match players.find? (fun u => u.id == k) with
            | some u => h u
            | none => 0) := by
  intro players
  induction players with
  | nil => intro _; simp
  | cons u0 ps ih =>
    intro hnd
    rw [List.map_cons] at hnd
    rcases List.nodup_cons.mp hnd with ⟨hnotin, hnd'⟩
    by_cases hu : u0.id = k
    · have hfind : List.find? (fun u => u.id == k) (u0 :: ps) = some u0 := by
        simp [List.find?_cons, hu]
      rw [hfind]
      simp only [List.map_cons, List.sum_cons, if_pos hu]
      have hzero : (ps.map (fun u => if u.id = k then h u else 0)).sum = 0 := by
        apply List.sum_eq_zero
        intro x hx
        rcases List.mem_map.mp hx with ⟨v, hv, hveq⟩
        have hne : v.id ≠ k := by
          intro hc
          exact hnotin (hu ▸ hc ▸ List.mem_map_of_mem User.id hv)
        rw [← hveq, if_neg hne]
      rw [hzero]
      ring
    · have hfind : List.find? (fun u => u.id == k) (u0 :: ps)
          = List.find? (fun u => u.id == k) ps := by
        simp [List.find?_cons, hu]
      rw [hfind, ← ih hnd']
      simp only [List.map_cons, List.sum_cons, if_neg hu]
      ring

theorem specUserContrib_nil (pid : Nat) (u : User) :
    specUserContrib [] pid u = 0 := by
  simp [specUserContrib]

theorem specUserContrib_cons (r : Review) (rest : List Review) (pid : Nat) (u : User)
    (hnotin : r.user ∉ rest.map Review.user) :
    specUserContrib (r :: rest) pid u
      = specUserContrib rest pid u + (if u.id = r.user then contribAt pid u r else 0) := by
  unfold specUserContrib
  by_cases hu : r.user = u.id
  · have hfind : List.find? (fun rr => rr.user == u.id) (r :: rest) = some r := by
      simp [List.find?_cons, hu]
    have hrest : List.find? (fun rr => rr.user == u.id) rest = none := by
      rw [List.find?_eq_none]
      intro rr hrr
      simp only [beq_iff_eq]
      intro hc
      exact hnotin (hu ▸ hc ▸ List.mem_map_of_mem Review.user hrr)
    rw [hfind, hrest, if_pos hu.symm]
    unfold contribAt
    simp
  · have hfind : List.find? (fun rr => rr.user == u.id) (r :: rest)
        = List.find? (fun rr => rr.user == u.id) rest := by
      simp [List.find?_cons, hu]
    rw [hfind, if_neg (fun hc => hu hc.symm)]
    ring

theorem sum_code_eq_sum_spec (pid : Nat) :
    ∀ (reviews : List Review) (players : List User),
      (players.map User.id).Nodup → (reviews.map Review.user).Nodup →
      (reviews.map (codeContrib players pid)).sum
        = (players.map (specUserContrib reviews pid)).sum := by
  intro reviews
  induction reviews with
  | nil =>
    intro players _ _
    apply Eq.symm
    apply List.sum_eq_zero
    intro x hx
    rcases List.mem_map.mp hx with ⟨u, _, hueq⟩
    rw [← hueq, specUserContrib_nil]
  | cons r rest ih =>
    intro players hplayers hrev
    rw [List.map_cons] at hrev
    rcases List.nodup_cons.mp hrev with ⟨hnotin, hrest⟩
    have hsplit : players.map (specUserContrib (r :: rest) pid)
        = players.map (fun u => specUserContrib rest pid u
            + (if u.id = r.user then contribAt pid u r else 0)) := by
      apply List.map_congr_left
      intro u _
      exact specUserContrib_cons r rest pid u hnotin
    rw [hsplit, List.sum_map_add, sum_indicator_eq_find r.user (fun u => contribAt pid u r) players hplayers]
    rw [List.map_cons, List.sum_cons, ih players hplayers hrest, codeContrib_eq_find]
    ring

theorem nodup_players (users : List User) (pid : Nat)
    (hids : (users.map User.id).Nodup) :
    ((usersWhoPlayed users pid).map User.id).Nodup :=
  List.Nodup.sublist (List.Sublist.map User.id (List.filter_sublist users)) hids

theorem timeFor_nonneg (users : List User) (pid : Nat) (u : User)
    (htimes : ∀ v ∈ users, ∀ pt ∈ v.playTime, 0 ≤ pt.time)
    (hu : u ∈ users) : 0 ≤ timeFor u pid := by
  unfold timeFor
  cases h : findPlay u pid with
  | some pt => exact htimes u hu pt (List.mem_of_find?_eq_some h)
  | none => exact le_refl 0

theorem specTotal_nonneg (users : List User) (p : Product)
    (htimes : ∀ v ∈ users, ∀ pt ∈ v.playTime, 0 ≤ pt.time) :
    0 ≤ specTotal users p := by
  apply List.sum_nonneg
  intro x hx
  rcases List.mem_map.mp hx with ⟨u, hu, hueq⟩
  rw [← hueq]
  exact timeFor_nonneg users p.id u htimes (List.mem_filter.mp hu).1

theorem rating_formula (users : List User) (p : Product) :
    (updateWeightedProductRating users p).rating
      = if (usersWhoPlayed users p.id).isEmpty then 0
        else if 0 < totalPlayTimeFor users p.id then
          weightedSumFor users p.id p.reviews / totalPlayTimeFor users p.id
        else 0 := by
  unfold updateWeightedProductRating
  split
  · rfl
  · rfl

theorem updateWeightedProductRating_id (users : List User) (p : Product) :
    (updateWeightedProductRating users p).id = p.id := by
  unfold updateWeightedProductRating
  split
  · rfl
  · rfl

theorem updateWeightedProductRating_reviews (users : List User) (p : Product) :
    (updateWeightedProductRating users p).reviews = p.reviews := by
  unfold updateWeightedProductRating
  split
  · rfl
  · rfl

theorem specUserContrib_eq_none (reviews : List Review) (pid : Nat) (u : User)
    (hf : reviews.find? (fun r => r.user == u.id) = none) :
    specUserContrib reviews pid u = 0 := by
  unfold specUserContrib
  rw [hf]

theorem specUserContrib_eq_some (reviews : List Review) (pid : Nat) (u : User) (r : Review)
    (hf : reviews.find? (fun r => r.user == u.id) = some r) :
    specUserContrib reviews pid u = contribAt pid u r := by
  unfold specUserContrib contribAt
  rw [hf]

theorem contribAt_nonneg (pid : Nat) (u : User) (r : Review) :
    0 ≤ contribAt pid u r := by
  unfold contribAt
  cases hr : r.rating with
  | none => exact le_refl 0
  | some x =>
    show 0 ≤ if 0 < timeFor u pid ∧ 0 < x then timeFor u pid * x else 0
    split_ifs with hc
    · exact le_of_lt (mul_pos hc.1 hc.2)
    · exact le_refl 0

theorem contribAt_le (pid : Nat) (u : User) (r : Review)
    (hx : ∀ x, r.rating = some x → 1 ≤ x ∧ x ≤ 5)
    (ht : 0 ≤ timeFor u pid) :
    contribAt pid u r ≤ 5 * timeFor u pid := by
  have h5t : (0:ℚ) ≤ 5 * timeFor u pid := mul_nonneg (by norm_num) ht
  unfold contribAt
  cases hr : r.rating with
  | none => exact h5t
  | some x =>
    show (if 0 < timeFor u pid ∧ 0 < x then timeFor u pid * x else 0) ≤ 5 * timeFor u pid
    split_ifs with hc
    · have hx5 : x ≤ 5 := (hx x hr).2
      calc timeFor u pid * x ≤ timeFor u pid * 5 := mul_le_mul_of_nonneg_left hx5 ht
        _ = 5 * timeFor u pid := by ring
    · exact h5t

theorem specUserContrib_nonneg (reviews : List Review) (pid : Nat) (u : User) :
    0 ≤ specUserContrib reviews pid u := by
  cases hf : reviews.find? (fun r => r.user == u.id) with
  | none => rw [specUserContrib_eq_none reviews pid u hf]
  | some r =>
    rw [specUserContrib_eq_some reviews pid u r hf]
    exact contribAt_nonneg pid u r

theorem specUserContrib_le (reviews : List Review) (pid : Nat) (u : User)
    (hratings : ∀ r ∈ reviews, ∀ x, r.rating = some x → 1 ≤ x ∧ x ≤ 5)
    (ht : 0 ≤ timeFor u pid) :
    specUserContrib reviews pid u ≤ 5 * timeFor u pid := by
  have h5t : (0:ℚ) ≤ 5 * timeFor u pid := mul_nonneg (by norm_num) ht
  cases hf : reviews.find? (fun r => r.user == u.id) with
  | none => rw [specUserContrib_eq_none reviews pid u hf]; exact h5t
  | some r =>
    rw [specUserContrib_eq_some reviews pid u r hf]
    exact contribAt_le pid u r (hratings r (List.mem_of_find?_eq_some hf)) ht

theorem specNumerator_nonneg (users : List User) (p : Product) :
    0 ≤ specNumerator users p := by
  apply List.sum_nonneg
  intro x hx
  rcases List.mem_map.mp hx with ⟨u, _, hueq⟩
  rw [← hueq]
  exact specUserContrib_nonneg p.reviews p.id u

theorem specNumerator_le (users : List User) (p : Product)
    (htimes : ∀ v ∈ users, ∀ pt ∈ v.playTime, 0 ≤ pt.time)
    (hratings : ∀ r ∈ p.reviews, ∀ x, r.rating = some x → 1 ≤ x ∧ x ≤ 5) :
    specNumerator users p ≤ 5 * specTotal users p := by
  unfold specNumerator specTotal
  rw [← List.sum_map_mul_left]
  apply List.sum_le_sum
  intro u hu
  exact specUserContrib_le p.reviews p.id u hratings
    (timeFor_nonneg users p.id u htimes (List.mem_filter.mp hu).1)

/-- C1: for every game, recomputing the rating sets game.rating to the
playtime-weighted average Σ(time_u * rating_u) / Σ(time_u) over the users
holding a playtime entry for the game, a user counting in the numerator only
with positive time and a positively rated review of the game, and 0 when no
user has played the game or the total playtime is 0. Hypotheses: distinct
user ids (Mongo document ids), at most one review per author and
non-negative ledger times, all invariants of every reachable store state. -/
theorem rating_recompute_matches_spec (users : List User) (p : Product)
    (hids : (users.map User.id).Nodup)
    (hrev : (p.reviews.map Review.user).Nodup)
    (htimes : ∀ v ∈ users, ∀ pt ∈ v.playTime, 0 ≤ pt.time) :
    (updateWeightedProductRating users p).rating = specWeightedRating users p := by
  rw [rating_formula]
  unfold specWeightedRating
  have htot : totalPlayTimeFor users p.id = specTotal users p := totalPlayTimeFor_eq_spec users p
  by_cases hnil : usersWhoPlayed users p.id = []
  · simp [hnil]
  · have hne : (usersWhoPlayed users p.id).isEmpty = false := by
      simp [List.isEmpty_iff, hnil]
    rw [hne]
    simp only [Bool.false_eq_true, if_false]
    have h0 : 0 ≤ specTotal users p := specTotal_nonneg users p htimes
    by_cases hpos : 0 < totalPlayTimeFor users p.id
    · have hTne : ¬ (usersWhoPlayed users p.id = [] ∨ specTotal users p = 0) := by
        rintro (hc | hc)
        · exact hnil hc
        · rw [htot, hc] at hpos
          exact lt_irrefl 0 hpos
      rw [if_pos hpos, if_neg hTne, htot, weightedSumFor_eq]
      unfold specNumerator
      rw [sum_code_eq_sum_spec p.id p.reviews (usersWhoPlayed users p.id)
        (nodup_players users p.id hids) hrev]
    · have hT0 : specTotal users p = 0 := le_antisymm (htot ▸ not_lt.mp hpos) h0
      rw [if_neg hpos, if_pos (Or.inr hT0)]

/-- Sample player who played game 10 for 120 minutes and rated it 5. -/
def aliceSample : User := { id := 1, name := "Alice", playTime := [⟨10, 120⟩] }

/-- Sample player who played game 10 for 80 minutes and rated it 3. -/
def bobSample : User := { id := 2, name := "Bob", playTime := [⟨10, 80⟩] }

/-- Sample game with the two reviews of the spec scenario. -/
def gameSample : Product :=
  { id := 10, user := 0, name := "Cyber Odyssey", image := "img", brand := "dev",
    category := ["RPG"], description := "d",
    reviews := [⟨1, "Alice", some 5, some "great"⟩, ⟨2, "Bob", some 3, some "solid"⟩],
    rating := 0, numReviews := 2, disableRating := false, disableCommenting := false }

/-- Witness for C1 on the spec scenario (120 min at rating 5 and 80 min at
rating 3). -/
theorem rating_recompute_matches_spec_witness :
    (updateWeightedProductRating [aliceSample, bobSample] gameSample).rating
      = specWeightedRating [aliceSample, bobSample] gameSample :=
  rating_recompute_matches_spec [aliceSample, bobSample] gameSample
    (by decide) (by decide) (by decide)

/-- C5: recomputing the rating twice with unchanged users and reviews yields
the same game.rating as recomputing once. -/
theorem recompute_idempotent (users : List User) (p : Product) :
    (updateWeightedProductRating users (updateWeightedProductRating users p)).rating
      = (updateWeightedProductRating users p).rating := by
  rw [rating_formula, rating_formula, updateWeightedProductRating_id,
    updateWeightedProductRating_reviews]

/-- C6: when every stored review rating lies in [1,5] (together with the
store invariants of distinct ids, one review per author and non-negative
ledger times), the recomputed rating lies in [0,5], and it is exactly 0
whenever the total playtime over all players of the game is 0. -/
theorem rating_bounds (users : List User) (p : Product)
    (hids : (users.map User.id).Nodup)
    (hrev : (p.reviews.map Review.user).Nodup)
    (htimes : ∀ v ∈ users, ∀ pt ∈ v.playTime, 0 ≤ pt.time)
    (hratings : ∀ r ∈ p.reviews, ∀ x, r.rating = some x → 1 ≤ x ∧ x ≤ 5) :
    0 ≤ (updateWeightedProductRating users p).rating
    ∧ (updateWeightedProductRating users p).rating ≤ 5
    ∧ (specTotal users p = 0 → (updateWeightedProductRating users p).rating = 0) := by
  have hspec := rating_recompute_matches_spec users p hids hrev htimes
  rw [hspec]
  unfold specWeightedRating
  by_cases hc : usersWhoPlayed users p.id = [] ∨ specTotal users p = 0
  · rw [if_pos hc]
    refine ⟨le_refl 0, by norm_num, fun _ => rfl⟩
  · rw [if_neg hc]
    have hT0 : specTotal users p ≠ 0 := fun h => hc (Or.inr h)
    have hTpos : 0 < specTotal users p :=
      lt_of_le_of_ne (specTotal_nonneg users p htimes) (Ne.symm hT0)
    refine ⟨div_nonneg (specNumerator_nonneg users p) (le_of_lt hTpos), ?_, fun h => absurd h hT0⟩
    rw [div_le_iff₀ hTpos]
    exact specNumerator_le users p htimes hratings

/-- Witness for C6 on the spec scenario. -/
theorem rating_bounds_witness :
    0 ≤ (updateWeightedProductRating [aliceSample, bobSample] gameSample).rating
    ∧ (updateWeightedProductRating [aliceSample, bobSample] gameSample).rating ≤ 5 :=
  ⟨(rating_bounds [aliceSample, bobSample] gameSample
      (by decide) (by decide) (by decide) (by decide)).1,
   (rating_bounds [aliceSample, bobSample] gameSample
      (by decide) (by decide) (by decide) (by decide)).2.1⟩

/-! Lemmas about the playtime ledger. -/

theorem find?_addPlayTime (pid : Nat) (m : ℚ) :
    ∀ l : List PlayEntry,
      (match (addPlayTime pid m l).find? (fun pt => pt.product == pid) with
        | some pt => pt.time
        | none => 0)
      = (match l.find? (fun pt => pt.product == pid) with
          | some pt => pt.time
          | none => 0) + m := by
  intro l
  induction l with
  | nil => simp [addPlayTime]
  | cons pt rest ih =>
    by_cases h : pt.product = pid
    · simp [addPlayTime, h]
    · have hb : (pt.product == pid) = false := by simp [h]
      simp only [addPlayTime, hb, List.find?_cons, Bool.false_eq_true, if_false]
      exact ih

theorem timeFor_play (u : User) (pid : Nat) (m : ℚ) :
    timeFor { u with playTime := addPlayTime pid m u.playTime } pid = timeFor u pid + m := by
  unfold timeFor findPlay
  exact find?_addPlayTime pid m u.playTime

/-- C4: a successful play call (positive minutes) increments the stored
cumulative time of the (user, game) pair by the given minutes, creating the
entry when absent, and returns the updated cumulative time; therefore after
any sequence of successful play calls the cumulative time equals its initial
value plus the sum of all minutes arguments. -/
theorem playGame_cumulative :
    (∀ (u : User) (pid : Nat) (m : ℚ), 0 < m →
      ∃ u1, playGame u pid m = .ok (u1, timeFor u1 pid)
        ∧ timeFor u1 pid = timeFor u pid + m)
    ∧ (∀ (u : User) (pid : Nat) (ms : List ℚ), (∀ m ∈ ms, 0 < m) →
      ∃ u1, playSeq u pid ms = .ok u1
        ∧ timeFor u1 pid = timeFor u pid + ms.sum) := by
  have hstep : ∀ (u : User) (pid : Nat) (m : ℚ), 0 < m →
      playGame u pid m
        = .ok ({ u with playTime := addPlayTime pid m u.playTime },
            timeFor { u with playTime := addPlayTime pid m u.playTime } pid) := by
    intro u pid m hm
    unfold playGame
    rw [if_neg (not_le.mpr hm)]
  constructor
  · intro u pid m hm
    exact ⟨{ u with playTime := addPlayTime pid m u.playTime },
      hstep u pid m hm, timeFor_play u pid m⟩
  · intro u pid ms
    induction ms generalizing u with
    | nil =>
      intro _
      exact ⟨u, rfl, by simp⟩
    | cons m rest ih =>
      intro hms
      have hm : 0 < m := hms m (List.mem_cons_self m rest)
      rcases ih { u with playTime := addPlayTime pid m u.playTime }
          (fun x hx => hms x (List.mem_cons_of_mem m hx)) with ⟨u1, hseq, htime⟩
      refine ⟨u1, ?_, ?_⟩
      · unfold playSeq
        rw [hstep u pid m hm]
        exact hseq
      · rw [htime, timeFor_play, List.sum_cons]
        ring

/-- Witness for C4: one call of 30 minutes, and a sequence of 30 then 45
minutes. -/
theorem playGame_cumulative_witness :
    (∃ u1, playGame aliceSample 10 30 = .ok (u1, timeFor u1 10)
      ∧ timeFor u1 10 = timeFor aliceSample 10 + 30)
    ∧ (∃ u1, playSeq bobSample 10 [30, 45] = .ok u1
      ∧ timeFor u1 10 = timeFor bobSample 10 + ([30, 45] : List ℚ).sum) :=
  ⟨playGame_cumulative.1 aliceSample 10 30 (by norm_num),
   playGame_cumulative.2 bobSample 10 [30, 45] (by
    intro m hm
    rcases List.mem_cons.mp hm with h | h
    · rw [h]; norm_num
    · rcases List.mem_cons.mp h with h2 | h2
      · rw [h2]; norm_num
      · simp at h2)⟩

/-- C2 (amended): in the review path, a provided rating merely has to be a
number in [1,5] after Number() conversion (the handler checks only the range,
not integrality); an out-of-range rating is denied as invalid before the
playtime check runs, a request passing the rating check with less than 60
minutes of cumulative playtime is denied with the 60-minute threshold in the
message, and a user with at least 60 minutes never receives the playtime
denial. -/
theorem review_validation_gate :
    (∀ (u : User) (p : Product) (x : ℚ) (c : Option String), (x < 1 ∨ 5 < x) →
      addOrUpdateProductReview u p (some x) c = .error .invalidRating)
    ∧ (∀ (u : User) (p : Product) (r : Option ℚ) (c : Option String),
        (r ≠ none ∨ c ≠ none) → (∀ x, r = some x → 1 ≤ x ∧ x ≤ 5) →
        timeFor u p.id < 60 →
        addOrUpdateProductReview u p r c = .error (.insufficientPlaytime 60))
    ∧ (∀ (u : User) (p : Product) (r : Option ℚ) (c : Option String) (t : Nat),
        60 ≤ timeFor u p.id →
        addOrUpdateProductReview u p r c ≠ .error (.insufficientPlaytime t)) := by
  refine ⟨?_, ?_, ?_⟩
  · intro u p x c h
    unfold addOrUpdateProductReview
    rw [if_neg (by simp), if_pos (by simp [h])]
  · intro u p r c hone hrange h60
    have h60q : timeFor u p.id < ((60:ℕ):ℚ) := by push_cast; exact h60
    cases r with
    | none =>
      have hc : c ≠ none := by
        rcases hone with h | h
        · exact absurd rfl h
        · exact h
      unfold addOrUpdateProductReview
      rw [if_neg (by rintro ⟨h1, h2⟩; exact hc h2)]
      simp [h60q]
      intro h
      linarith
    | some x =>
      have hx := hrange x rfl
      have hnot : ¬ (x < 1 ∨ 5 < x) := by
        rintro (hlt | hgt)
        · exact absurd hx.1 (not_le.mpr hlt)
        · exact absurd hx.2 (not_le.mpr hgt)
      unfold addOrUpdateProductReview
      rw [if_neg (by simp)]
      simp [hnot, h60q]
      intro h
      linarith
  · intro u p r c t h60 hcontra
    have h60q : ¬ (timeFor u p.id < ((60:ℕ):ℚ)) := by
      push_cast
      exact not_lt.mpr h60
    simp only [addOrUpdateProductReview] at hcontra
    split_ifs at hcontra <;> simp_all

/-- Sample user with 59 minutes of playtime on game 10. -/
def carolSample : User := { id := 3, name := "Carol", playTime := [⟨10, 59⟩] }

/-- Sample user with exactly 60 minutes of playtime on game 10. -/
def daveSample : User := { id := 4, name := "Dave", playTime := [⟨10, 60⟩] }

/-- Witness for C2: 59 minutes is denied with the 60-minute threshold, 60
minutes passes the playtime check, and an out-of-range rating is denied as
invalid even for the 59-minute user (the rating check runs first). -/
theorem review_validation_gate_witness :
    addOrUpdateProductReview carolSample gameSample (some 3) none
      = .error (.insufficientPlaytime 60)
    ∧ addOrUpdateProductReview daveSample gameSample (some 3) none
      ≠ .error (.insufficientPlaytime 60)
    ∧ addOrUpdateProductReview carolSample gameSample (some 7) none
      = .error .invalidRating :=
  ⟨review_validation_gate.2.1 carolSample gameSample (some 3) none
      (Or.inl (by simp))
      (by rintro x hx; injection hx with h; subst h; norm_num)
      (by norm_num [timeFor, findPlay, carolSample, gameSample]),
   review_validation_gate.2.2 daveSample gameSample (some 3) none 60
      (by norm_num [timeFor, findPlay, daveSample, gameSample]),
   review_validation_gate.1 carolSample gameSample 7 none (by norm_num)⟩

/-- Counterexample for C2 as frozen: the claim demands that a provided
rating be an integer in [1,5] and that otherwise the request be denied, but
the handler accepts the non-integral rating 7/2 (it only checks the range),
so the request succeeds. -/
theorem noninteger_rating_accepted :
    (addOrUpdateProductReview aliceSample gameSample (some ((7:ℚ)/2)) (some "ok")).isOk = true
    ∧ ¬ ∃ n : ℤ, ((7:ℚ)/2) = (n : ℚ) := by
  constructor
  · unfold addOrUpdateProductReview
    rw [if_neg (fun h => Option.noConfusion h.1)]
    norm_num [timeFor, findPlay, aliceSample, gameSample, upsertReviewList,
      reviewSaveOk, Except.isOk, Except.toBool]
    rw [if_pos (show "ok".isEmpty = false ∧ "solid".isEmpty = false from
      ⟨by decide, by decide⟩)]
  · rintro ⟨n, hn⟩
    have h2 : (7:ℚ) = 2 * (n:ℚ) := by
      field_simp at hn
      linarith
    have h3 : (7:ℤ) = 2 * n := by exact_mod_cast h2
    omega

/-- Sample game with no reviews yet. -/
def emptyGameSample : Product := { gameSample with reviews := [], numReviews := 0 }

/-- C3 (code bug): the controller builds a comment-only review entry, but
reviewSchema marks the rating field (and the comment field) required, so
product.save() rejects the new subdocument and the endpoint answers 500
without storing anything: the comment-then-rating round-trip of the claim
dies on its first step. -/
theorem comment_only_review_returns_500 :
    addOrUpdateProductReview aliceSample emptyGameSample none (some "Great game")
      = .error .serverError := by
  unfold addOrUpdateProductReview
  rw [if_neg (fun h => Option.noConfusion h.2)]
  norm_num [timeFor, findPlay, aliceSample, emptyGameSample, gameSample,
    upsertReviewList, reviewSaveOk]

/-! Invariants of the product documents. -/

/-- The C7 invariant: the stored counter matches the review list and there
is at most one review per author. -/
def productInv (p : Product) : Prop :=
  p.numReviews = p.reviews.length ∧ (p.reviews.map Review.user).Nodup

theorem upsert_found_map (uid : Nat) (name : String) (rating : Option ℚ)
    (comment : Option String) :
    ∀ l : List Review, (upsertReviewList uid name rating comment l).2 = true →
      (upsertReviewList uid name rating comment l).1.map Review.user
        = l.map Review.user := by
  intro l
  induction l with
  | nil => intro h; simp [upsertReviewList] at h
  | cons r rest ih =>
    intro h
    by_cases hb : r.user = uid
    · have hbt : (r.user == uid) = true := by simp [hb]
      simp [upsertReviewList, hbt]
    · have hbf : (r.user == uid) = false := by simp [hb]
      simp only [upsertReviewList, hbf, Bool.false_eq_true, if_false] at h ⊢
      simp only [List.map_cons]
      rw [ih h]

theorem upsert_notfound (uid : Nat) (name : String) (rating : Option ℚ)
    (comment : Option String) :
    ∀ l : List Review, (upsertReviewList uid name rating comment l).2 = false →
      (upsertReviewList uid name rating comment l).1
          = l ++ [{ user := uid, name := name, rating := rating, comment := comment }]
        ∧ ∀ r ∈ l, r.user ≠ uid := by
  intro l
  induction l with
  | nil =>
    intro _
    refine ⟨by simp [upsertReviewList], by simp⟩
  | cons r rest ih =>
    intro h
    by_cases hb : r.user = uid
    · have hbt : (r.user == uid) = true := by simp [hb]
      simp [upsertReviewList, hbt] at h
    · have hbf : (r.user == uid) = false := by simp [hb]
      simp only [upsertReviewList, hbf, Bool.false_eq_true, if_false] at h ⊢
      obtain ⟨h1, h2⟩ := ih h
      refine ⟨by rw [h1]; rfl, ?_⟩
      intro x hx
      rcases List.mem_cons.mp hx with hh | hh
      · rw [hh]; exact hb
      · exact h2 x hh

theorem upsert_found_length (uid : Nat) (name : String) (rating : Option ℚ)
    (comment : Option String) (l : List Review)
    (h : (upsertReviewList uid name rating comment l).2 = true) :
    (upsertReviewList uid name rating comment l).1.length = l.length := by
  have hmap := upsert_found_map uid name rating comment l h
  calc (upsertReviewList uid name rating comment l).1.length
      = ((upsertReviewList uid name rating comment l).1.map Review.user).length :=
        (List.length_map _ _).symm
    _ = (l.map Review.user).length := by rw [hmap]
    _ = l.length := List.length_map _ _

theorem addOrUpdateProductReview_inv (u : User) (p : Product) (rating : Option ℚ)
    (comment : Option String) (p1 : Product) (msg : String)
    (hinv : productInv p)
    (hok : addOrUpdateProductReview u p rating comment = .ok (p1, msg)) :
    productInv p1 := by
  simp only [addOrUpdateProductReview] at hok
  split_ifs at hok with h1 h2 h3 h4 h5 hstep hsave hsave2 <;>
    try exact Except.noConfusion hok
  · -- existing review updated in place
    injection Except.ok.inj hok with hfst hsnd
    rw [← hfst]
    have hmap := upsert_found_map u.id u.name rating comment p.reviews hstep
    exact ⟨by
        show p.numReviews = (upsertReviewList u.id u.name rating comment p.reviews).1.length
        rw [upsert_found_length u.id u.name rating comment p.reviews hstep]
        exact hinv.1,
      by
        show ((upsertReviewList u.id u.name rating comment p.reviews).1.map Review.user).Nodup
        rw [hmap]
        exact hinv.2⟩
  · -- fresh review appended, counter reset to the list length
    injection Except.ok.inj hok with hfst hsnd
    rw [← hfst]
    have hstepf : (upsertReviewList u.id u.name rating comment p.reviews).2 = false := by
      simpa using hstep
    obtain ⟨happ, hnone⟩ := upsert_notfound u.id u.name rating comment p.reviews hstepf
    refine ⟨rfl, ?_⟩
    show ((upsertReviewList u.id u.name rating comment p.reviews).1.map Review.user).Nodup
    rw [happ, List.map_append, List.nodup_append]
    refine ⟨hinv.2, by simp, ?_⟩
    intro a ha hb
    have hb2 : a = u.id := by simpa using hb
    rcases List.mem_map.mp ha with ⟨r, hr, hre⟩
    exact hnone r hr (by rw [hre, hb2])

theorem updateWeightedProductRating_numReviews (users : List User) (p : Product) :
    (updateWeightedProductRating users p).numReviews = p.numReviews := by
  unfold updateWeightedProductRating
  split
  · rfl
  · rfl

theorem deleteUser_inv (db : DB) (uid : Nat) (db1 : DB) (msg : String)
    (hinv : ∀ p ∈ db.products, productInv p)
    (h : deleteUser db uid = some (db1, msg)) :
    ∀ p1 ∈ db1.products, productInv p1 := by
  unfold deleteUser at h
  cases hf : db.users.find? (fun u => u.id == uid) with
  | none => rw [hf] at h; exact Option.noConfusion h
  | some u0 =>
    rw [hf] at h
    injection h with h1
    injection h1 with hdb hmsg
    intro p1 hp1
    rw [← hdb] at hp1
    rcases List.mem_map.mp hp1 with ⟨p, hp, hpe⟩
    by_cases hany : p.reviews.any (fun r => r.user == uid)
    · rw [← hpe, if_pos hany]
      unfold cleanProductForUser
      constructor
      · rw [updateWeightedProductRating_numReviews, updateWeightedProductRating_reviews]
      · rw [updateWeightedProductRating_reviews]
        exact List.Nodup.sublist (List.Sublist.map _ (List.filter_sublist _)) (hinv p hp).2
    · rw [← hpe, if_neg hany]
      exact hinv p hp

theorem createProduct_inv (ownerId pid : Nat) (name description image brand : String)
    (category : List String) (dr dc : Option Bool) (p : Product)
    (h : createProduct ownerId pid name description image brand category dr dc = .ok p) :
    productInv p := by
  unfold createProduct at h
  split_ifs at h
  · injection h with h2
    rw [← h2]
    exact ⟨rfl, List.nodup_nil⟩

/-- The body keys an admin update may carry without clobbering the stored
review aggregates: everything except reviews and numReviews. -/
def allowedExtra : ExtraAssign → Prop
  | .setNumReviews _ => False
  | .setReviews _ => False
  | .setRating _ => True
  | .setOther _ _ => True

theorem applyExtra_inv (p : Product) (e : ExtraAssign)
    (hinv : productInv p) (he : allowedExtra e) : productInv (applyExtra p e) := by
  cases e with
  | setNumReviews n => exact he.elim
  | setReviews rs => exact he.elim
  | setRating x => exact hinv
  | setOther k v => exact hinv

theorem foldl_extras_inv :
    ∀ (extras : List ExtraAssign) (q : Product), productInv q →
      (∀ e ∈ extras, allowedExtra e) → productInv (extras.foldl applyExtra q) := by
  intro extras
  induction extras with
  | nil => intro q hq _; exact hq
  | cons e rest ih =>
    intro q hq hall
    rw [List.foldl_cons]
    exact ih (applyExtra q e) (applyExtra_inv q e hq (hall e (List.mem_cons_self e rest)))
      (fun x hx => hall x (List.mem_cons_of_mem e hx))

theorem updateProduct_inv (p : Product) (name description image brand : Option String)
    (category : Option (List String)) (dr dc : Option Bool)
    (extras : List ExtraAssign) (p1 : Product)
    (hinv : productInv p) (hallow : ∀ e ∈ extras, allowedExtra e)
    (h : updateProduct p name description image brand category dr dc extras = .ok p1) :
    productInv p1 := by
  unfold updateProduct at h
  split_ifs at h
  · injection h with h2
    rw [← h2]
    exact foldl_extras_inv extras _ hinv hallow

/-- C7 (amended): after a review insert or update, after the user-deletion
cleanup and after product creation, numReviews equals reviews.length and
there is at most one review per (game, user) pair; the same holds after an
admin product update provided its body does not carry the stored aggregates
(reviews, numReviews) among the passthrough extra fields, which the
otherFields loop would copy verbatim onto the document. -/
theorem review_count_invariants :
    (∀ (u : User) (p : Product) (rating : Option ℚ) (comment : Option String)
        (p1 : Product) (msg : String),
      productInv p → addOrUpdateProductReview u p rating comment = .ok (p1, msg) →
      productInv p1)
    ∧ (∀ (db : DB) (uid : Nat) (db1 : DB) (msg : String),
      (∀ p ∈ db.products, productInv p) → deleteUser db uid = some (db1, msg) →
      ∀ p1 ∈ db1.products, productInv p1)
    ∧ (∀ (ownerId pid : Nat) (name description image brand : String)
        (category : List String) (dr dc : Option Bool) (p : Product),
      createProduct ownerId pid name description image brand category dr dc = .ok p →
      productInv p)
    ∧ (∀ (p : Product) (name description image brand : Option String)
        (category : Option (List String)) (dr dc : Option Bool)
        (extras : List ExtraAssign) (p1 : Product),
      productInv p → (∀ e ∈ extras, allowedExtra e) →
      updateProduct p name description image brand category dr dc extras = .ok p1 →
      productInv p1) :=
  ⟨fun u p rating comment p1 msg hinv hok =>
      addOrUpdateProductReview_inv u p rating comment p1 msg hinv hok,
   fun db uid db1 msg hinv h => deleteUser_inv db uid db1 msg hinv h,
   fun ownerId pid name description image brand category dr dc p h =>
      createProduct_inv ownerId pid name description image brand category dr dc p h,
   fun p name description image brand category dr dc extras p1 hinv hallow h =>
      updateProduct_inv p name description image brand category dr dc extras p1 hinv hallow h⟩

/-- Witness for C7: updating the sample review of Alice keeps the invariant. -/
theorem review_count_invariants_witness :
    productInv { gameSample with
      reviews := [⟨1, "Alice", some 4, some "fun"⟩, ⟨2, "Bob", some 3, some "solid"⟩] } :=
  review_count_invariants.1 aliceSample gameSample (some 4) (some "fun")
    { gameSample with
      reviews := [⟨1, "Alice", some 4, some "fun"⟩, ⟨2, "Bob", some 3, some "solid"⟩] }
    "Review updated" ⟨by decide, by decide⟩ (by rfl)

/-- Counterexample for C7 as frozen: an admin product update whose body
passes every route validator (non-empty name, description, image and brand)
and additionally carries the extra field numReviews is accepted, and the
otherFields loop overwrites the stored counter verbatim, breaking
numReviews = reviews.length. -/
theorem admin_update_breaks_numReviews :
    updateProduct gameSample (some "Cyber Odyssey") (some "d") (some "img") (some "dev")
        none none none [.setNumReviews 5]
      = .ok { gameSample with numReviews := 5 }
    ∧ ({ gameSample with numReviews := 5 } : Product).numReviews
      ≠ ({ gameSample with numReviews := 5 } : Product).reviews.length := by
  constructor
  · rfl
  · decide

/-- The product as it stands inside the deleteUser loop right after the
reviews of the user were filtered out and the counter updated, before the
rating recomputation. -/
def strippedProduct (p : Product) (uid : Nat) : Product :=
  { p with reviews := p.reviews.filter (fun r => r.user != uid),
           numReviews := (p.reviews.filter (fun r => r.user != uid)).length }

/-- C8 (amended): deleteUser removes every review authored by the user from
every game, resets that game's numReviews to the new review count and
recomputes that game's rating against the pre-deletion user set (the ledger
of the user being deleted still counts in the denominator), all before the
user record is removed; an unaffected game is left untouched. deleteProduct
removes the ledger entry for the game from every user before the game record
is removed, and its response reports the number of affected users. (The
deleteUser response, unlike the claim says, carries only a fixed message and
no count — see the counterexample.) -/
theorem delete_cleanup :
    (∀ (db : DB) (uid : Nat) (db1 : DB) (msg : String),
      deleteUser db uid = some (db1, msg) →
      (∀ u1 ∈ db1.users, u1.id ≠ uid)
      ∧ db1.products.length = db.products.length
      ∧ ∀ (i : Nat) (hp : i < db.products.length) (hq : i < db1.products.length),
          ((db.products.get ⟨i, hp⟩).reviews.any (fun r => r.user == uid) = true →
            (db1.products.get ⟨i, hq⟩).reviews
                = (db.products.get ⟨i, hp⟩).reviews.filter (fun r => r.user != uid)
              ∧ (db1.products.get ⟨i, hq⟩).numReviews
                = (db1.products.get ⟨i, hq⟩).reviews.length
              ∧ (db1.products.get ⟨i, hq⟩).rating
                = (updateWeightedProductRating db.users
                    (strippedProduct (db.products.get ⟨i, hp⟩) uid)).rating)
          ∧ ((db.products.get ⟨i, hp⟩).reviews.any (fun r => r.user == uid) = false →
              db1.products.get ⟨i, hq⟩ = db.products.get ⟨i, hp⟩))
    ∧ (∀ (db : DB) (pid : Nat) (db1 : DB) (resp : DeleteProductResp),
      deleteProduct db pid = some (db1, resp) →
      (∀ u1 ∈ db1.users, ∀ pt ∈ u1.playTime, pt.product ≠ pid)
      ∧ (∀ p1 ∈ db1.products, p1.id ≠ pid)
      ∧ resp.affectedUsers
          = (db.users.filter (fun u => u.playTime.any (fun pt => pt.product == pid))).length) := by
  constructor
  · intro db uid db1 msg h
    unfold deleteUser at h
    cases hf : db.users.find? (fun u => u.id == uid) with
    | none => rw [hf] at h; exact Option.noConfusion h
    | some u0 =>
      rw [hf] at h
      injection h with h1
      injection h1 with hdb hmsg
      subst hdb
      refine ⟨?_, ?_, ?_⟩
      · intro u1 hu1
        have := (List.mem_filter.mp hu1).2
        simpa using this
      · exact List.length_map _ _
      · intro i hp hq
        have hget : (DB.products
              { users := db.users.filter (fun u => u.id != uid),
                products := db.products.map (fun p =>
                  if p.reviews.any (fun r => r.user == uid) then
                    cleanProductForUser db.users uid p
                  else p) }).get ⟨i, hq⟩
            = (if (db.products.get ⟨i, hp⟩).reviews.any (fun r => r.user == uid) then
                cleanProductForUser db.users uid (db.products.get ⟨i, hp⟩)
              else db.products.get ⟨i, hp⟩) := by
          simp [List.get_eq_getElem, List.getElem_map]
        constructor
        · intro hany
          rw [hget, if_pos hany]
          unfold cleanProductForUser
          refine ⟨?_, ?_, ?_⟩
          · rw [updateWeightedProductRating_reviews]
          · rw [updateWeightedProductRating_reviews, updateWeightedProductRating_numReviews]
          · rfl
        · intro hany
          rw [hget, if_neg (by rw [hany]; exact Bool.false_ne_true)]
  · intro db pid db1 resp h
    unfold deleteProduct at h
    cases hf : db.products.find? (fun p => p.id == pid) with
    | none => rw [hf] at h; exact Option.noConfusion h
    | some p0 =>
      rw [hf] at h
      injection h with h1
      injection h1 with hdb hresp
      subst hdb
      subst hresp
      refine ⟨?_, ?_, ?_⟩
      · intro u1 hu1 pt hpt
        rcases List.mem_map.mp hu1 with ⟨u, hu, hue⟩
        by_cases hany : u.playTime.any (fun q => q.product == pid)
        · rw [← hue, if_pos hany] at hpt
          have := (List.mem_filter.mp hpt).2
          simpa using this
        · rw [← hue, if_neg hany] at hpt
          have hb : u.playTime.any (fun q => q.product == pid) = false :=
            Bool.eq_false_iff.mpr hany
          have := List.any_eq_false.mp hb pt hpt
          simpa using this
      · intro p1 hp1
        have := (List.mem_filter.mp hp1).2
        simpa using this
      · rfl

/-- Sample user with no playtime who authored reviews (deletion samples). -/
def eveSample : User := { id := 5, name := "Eve", playTime := [] }

/-- Sample game 20 reviewed by Eve. -/
def reviewedGameA : Product :=
  { id := 20, user := 0, name := "A", image := "i", brand := "b", category := ["c"],
    description := "d", reviews := [⟨5, "Eve", some 5, some "x"⟩], rating := 5,
    numReviews := 1, disableRating := false, disableCommenting := false }

/-- Sample game 21 reviewed by Eve. -/
def reviewedGameB : Product :=
  { id := 21, user := 0, name := "B", image := "i", brand := "b", category := ["c"],
    description := "d", reviews := [⟨5, "Eve", some 5, some "y"⟩], rating := 5,
    numReviews := 1, disableRating := false, disableCommenting := false }

/-- Store where deleting Eve touches one game. -/
def dbDelA : DB := { users := [eveSample], products := [reviewedGameA] }

/-- Store where deleting Eve touches two games. -/
def dbDelB : DB := { users := [eveSample], products := [reviewedGameA, reviewedGameB] }

/-- The store dbDelA after Eve was deleted. -/
def dbDelA1 : DB := { users := [], products := [{ reviewedGameA with reviews := [], numReviews := 0, rating := 0 }] }

/-- Witness for C8, applying the deleteUser half on the one-game store. -/
theorem delete_cleanup_witness : dbDelA1.products.length = dbDelA.products.length :=
  (delete_cleanup.1 dbDelA 5 dbDelA1
    "User removed successfully and all associated data cleaned up" (by rfl)).2.1

/-- Counterexample for C8 as frozen: the claim says both deletion operations
report how many dependent records were touched, but deleteUser answers the
same fixed message whether it removed reviews from one game or from two, so
its response reports no such count (deleteProduct does report
affectedUsers). -/
theorem deleteUser_response_carries_no_count :
    (deleteUser dbDelA 5).map (fun x => x.2) = (deleteUser dbDelB 5).map (fun x => x.2)
    ∧ (dbDelA.products.filter (fun p => p.reviews.any (fun r => r.user == 5))).length
      ≠ (dbDelB.products.filter (fun p => p.reviews.any (fun r => r.user == 5))).length := by
  constructor
  · rfl
  · decide

/-- Sample user with an empty ledger. -/
def frankSample : User := { id := 6, name := "Frank", playTime := [] }

/-- C9 (code bug): the play route declares an isInt({min: 1}) validator for
the time field, but playGame never calls validationResult, so the recorded
errors are dropped and the handler accepts the positive non-integral minutes
value 3/2: it creates the ledger entry with time 3/2 and reports success,
where the claim (and the route validator) demand a ValidationError and no
mutation. Zero and negative values are indeed rejected by the truthiness
check. -/
theorem playGame_accepts_fractional_minutes :
    playGame frankSample 10 ((3:ℚ)/2)
      = .ok ({ frankSample with playTime := [⟨10, (3:ℚ)/2⟩] }, (3:ℚ)/2)
    ∧ ¬ ∃ n : ℤ, ((3:ℚ)/2) = (n : ℚ) := by
  constructor
  · unfold playGame
    rw [if_neg (by norm_num)]
    norm_num [addPlayTime, timeFor, findPlay, frankSample]
  · rintro ⟨n, hn⟩
    have h2 : (3:ℚ) = 2 * (n:ℚ) := by
      field_simp at hn
      linarith
    have h3 : (3:ℤ) = 2 * n := by exact_mod_cast h2
    omega

/-! Lemmas about the playtime-sorted read projections. -/

theorem sortByKeyDesc_perm {α : Type} (key : α → ℚ) (l : List α) :
    (sortByKeyDesc key l).Perm l :=
  @List.perm_insertionSort α (fun a b => key b ≤ key a)
    (fun a b => inferInstanceAs (Decidable (key b ≤ key a))) l

theorem sortByKeyDesc_sorted {α : Type} (key : α → ℚ) (l : List α) :
    (sortByKeyDesc key l).Pairwise (fun a b => key b ≤ key a) := by
  haveI ht : IsTotal α (fun a b => key b ≤ key a) := ⟨fun a b => le_total (key b) (key a)⟩
  haveI htr : IsTrans α (fun a b => key b ≤ key a) :=
    ⟨fun a b c hab hbc => le_trans hbc hab⟩
  exact @List.sorted_insertionSort α (fun a b => key b ≤ key a)
    (fun a b => inferInstanceAs (Decidable (key b ≤ key a))) ht htr l

theorem nodup_filter_ids (users : List User) (cond : User → Bool)
    (hnd : (users.map User.id).Nodup) :
    ((users.filter cond).map User.id).Nodup :=
  List.Nodup.sublist (List.Sublist.map User.id (List.filter_sublist users)) hnd

theorem playersMap_foldl (pid : Nat) :
    ∀ (l : List User) (m0 : Nat → Option ℚ) (uid : Nat),
      (l.map User.id).Nodup →
      (l.foldl (fun m u =>
        match findPlay u pid with
        | some pt => fun k => if k == u.id then some pt.time else m k
        | none => m) m0) uid
      = (match l.find? (fun u => u.id == uid) with
         | some u =>
           match findPlay u pid with
           | some pt => some pt.time
           | none => m0 uid
         | none => m0 uid) := by
  intro l
  induction l with
  | nil => intro m0 uid _; rfl
  | cons u0 rest ih =>
    intro m0 uid hnd
    rw [List.map_cons] at hnd
    obtain ⟨hnotin, hnd2⟩ := List.nodup_cons.mp hnd
    rw [List.foldl_cons]
    by_cases hu : u0.id = uid
    · have hbt : (u0.id == uid) = true := by simp [hu]
      have hfind : List.find? (fun u => u.id == uid) (u0 :: rest) = some u0 := by
        simp [List.find?_cons, hbt]
      have hrest : List.find? (fun u => u.id == uid) rest = none := by
        rw [List.find?_eq_none]
        intro x hx hbx
        have : x.id = uid := by simpa using hbx
        exact hnotin (hu ▸ this ▸ List.mem_map_of_mem User.id hx)
      rw [ih _ uid hnd2, hrest, hfind]
      cases hp : findPlay u0 pid with
      | some pt =>
        have hbe : (uid == u0.id) = true := by simp [hu]
        simp [hp, hbe]
      | none => simp [hp]
    · have hbf : (u0.id == uid) = false := by simp [hu]
      have hfind : List.find? (fun u => u.id == uid) (u0 :: rest)
          = List.find? (fun u => u.id == uid) rest := by
        simp [List.find?_cons, hbf]
      have hm1 : (match findPlay u0 pid with
          | some pt => fun k => if k == u0.id then some pt.time else m0 k
          | none => m0) uid = m0 uid := by
        cases hp : findPlay u0 pid with
        | none => rfl
        | some pt =>
          have hbe : (uid == u0.id) = false :=
            beq_eq_false_iff_ne.mpr (fun hh => hu hh.symm)
          simp [hbe]
      rw [ih _ uid hnd2, hfind, hm1]

theorem byIdMap_foldl (pid : Nat) :
    ∀ (l : List User) (m0 : Nat → Option ℚ) (uid : Nat),
      (l.map User.id).Nodup →
      (l.foldl (fun m u => fun k => if k == u.id then some (timeFor u pid) else m k) m0) uid
      = (match l.find? (fun u => u.id == uid) with
         | some u => some (timeFor u pid)
         | none => m0 uid) := by
  intro l
  induction l with
  | nil => intro m0 uid _; rfl
  | cons u0 rest ih =>
    intro m0 uid hnd
    rw [List.map_cons] at hnd
    obtain ⟨hnotin, hnd2⟩ := List.nodup_cons.mp hnd
    rw [List.foldl_cons]
    by_cases hu : u0.id = uid
    · have hbt : (u0.id == uid) = true := by simp [hu]
      have hfind : List.find? (fun u => u.id == uid) (u0 :: rest) = some u0 := by
        simp [List.find?_cons, hbt]
      have hrest : List.find? (fun u => u.id == uid) rest = none := by
        rw [List.find?_eq_none]
        intro x hx hbx
        have : x.id = uid := by simpa using hbx
        exact hnotin (hu ▸ this ▸ List.mem_map_of_mem User.id hx)
      rw [ih _ uid hnd2, hrest, hfind]
      have hbe : (uid == u0.id) = true := by simp [hu]
      simp [hbe]
    · have hbf : (u0.id == uid) = false := by simp [hu]
      have hfind : List.find? (fun u => u.id == uid) (u0 :: rest)
          = List.find? (fun u => u.id == uid) rest := by
        simp [List.find?_cons, hbf]
      have hbe : (uid == u0.id) = false :=
        beq_eq_false_iff_ne.mpr (fun hh => hu hh.symm)
      have hm1 : (if (uid == u0.id) = true then some (timeFor u0 pid) else m0 uid)
          = m0 uid := by simp [hbe]
      rw [ih _ uid hnd2, hfind, hm1]

theorem find?_filter_eq (uid : Nat) (cond : User → Bool) :
    ∀ (l : List User), (l.map User.id).Nodup →
      (l.filter cond).find? (fun u => u.id == uid)
      = (l.find? (fun u => u.id == uid)).bind
          (fun u => if cond u then some u else none) := by
  intro l
  induction l with
  | nil => intro _; rfl
  | cons u0 rest ih =>
    intro hnd
    rw [List.map_cons] at hnd
    obtain ⟨hnotin, hnd2⟩ := List.nodup_cons.mp hnd
    by_cases hu : u0.id = uid
    · have hbt : (u0.id == uid) = true := by simp [hu]
      by_cases hc : cond u0
      · rw [List.filter_cons_of_pos hc]
        simp [List.find?_cons, hbt, hc]
      · rw [List.filter_cons_of_neg hc]
        have hres : (rest.filter cond).find? (fun u => u.id == uid) = none := by
          rw [List.find?_eq_none]
          intro x hx hbx
          have hxid : x.id = uid := by simpa using hbx
          exact hnotin (hu ▸ hxid ▸
            List.mem_map_of_mem User.id (List.mem_of_mem_filter hx))
        rw [hres]
        have hcf : cond u0 = false := Bool.eq_false_iff.mpr hc
        simp [List.find?_cons, hbt, hcf]
    · have hbf : (u0.id == uid) = false := by simp [hu]
      by_cases hc : cond u0
      · rw [List.filter_cons_of_pos hc]
        rw [List.find?_cons_of_neg _ (by simp [hbf]), ih hnd2]
        have : List.find? (fun u => u.id == uid) (u0 :: rest)
            = List.find? (fun u => u.id == uid) rest := by
          simp [List.find?_cons, hbf]
        rw [this]
      · rw [List.filter_cons_of_neg hc, ih hnd2]
        have : List.find? (fun u => u.id == uid) (u0 :: rest)
            = List.find? (fun u => u.id == uid) rest := by
          simp [List.find?_cons, hbf]
        rw [this]

theorem playersPlaytimeMap_getD (users : List User) (pid uid : Nat)
    (hnd : (users.map User.id).Nodup) :
    (playersPlaytimeMap users pid uid).getD 0 = playtimeOf users pid uid := by
  unfold playersPlaytimeMap
  rw [playersMap_foldl pid (usersWhoPlayed users pid) _ uid (nodup_players users pid hnd)]
  unfold usersWhoPlayed
  rw [find?_filter_eq uid _ users hnd]
  unfold playtimeOf
  cases hf : users.find? (fun u => u.id == uid) with
  | none => rfl
  | some u =>
    rw [Option.some_bind]
    by_cases hc : u.playTime.any (fun pt => pt.product == pid) = true
    · cases hp : findPlay u pid with
      | some pt =>
        rw [hc]
        simp [hp, timeFor]
      | none =>
        exfalso
        rcases List.any_eq_true.mp hc with ⟨pt, hpt, hb⟩
        exact (List.find?_eq_none.mp hp pt hpt) hb
    · have hcf : u.playTime.any (fun pt => pt.product == pid) = false :=
        Bool.eq_false_iff.mpr hc
      have hp : findPlay u pid = none := by
        unfold findPlay
        rw [List.find?_eq_none]
        intro pt hpt
        exact List.any_eq_false.mp hcf pt hpt
      rw [hcf]
      simp [timeFor, hp]

theorem byIdPlaytimeMap_getD (users : List User) (p : Product) (uid : Nat)
    (hnd : (users.map User.id).Nodup)
    (hrev : (p.reviews.map Review.user).contains uid = true) :
    (byIdPlaytimeMap users p uid).getD 0 = playtimeOf users p.id uid := by
  unfold byIdPlaytimeMap
  rw [byIdMap_foldl p.id _ _ uid (nodup_filter_ids users _ hnd)]
  rw [find?_filter_eq uid _ users hnd]
  unfold playtimeOf
  cases hf : users.find? (fun u => u.id == uid) with
  | none => rfl
  | some u =>
    have huid : u.id = uid := by simpa using List.find?_some hf
    rw [Option.some_bind]
    by_cases hc : ((p.reviews.map Review.user).contains u.id && (findPlay u p.id).isSome) = true
    · cases hp : findPlay u p.id with
      | none =>
        exfalso
        rw [hp] at hc
        simp at hc
      | some pt =>
        rw [hp] at hc
        rw [hc]
        simp [hp, timeFor]
    · have hcontains : (p.reviews.map Review.user).contains u.id = true := by
        rw [huid]
        exact hrev
      have hp : findPlay u p.id = none := by
        cases hq : findPlay u p.id with
        | none => rfl
        | some pt =>
          exfalso
          apply hc
          rw [hcontains, hq]
          rfl
      have hcf : ((p.reviews.map Review.user).contains u.id && (findPlay u p.id).isSome) = false :=
        Bool.eq_false_iff.mpr hc
      rw [hcf]
      simp [timeFor, hp]

theorem reviewsWithPlaytime_spec (users : List User) (p : Product)
    (hnd : (users.map User.id).Nodup) :
    ((reviewsWithPlaytime users p).map (fun v => (v.userId, v.rating, v.comment))).Perm
        (p.reviews.map (fun r => (r.user, r.rating, r.comment)))
    ∧ (reviewsWithPlaytime users p).Pairwise
        (fun a b => playtimeOf users p.id b.userId ≤ playtimeOf users p.id a.userId)
    ∧ ∀ v ∈ reviewsWithPlaytime users p,
        v.userPlayTime = playtimeOf users p.id v.userId := by
  have hkey : ∀ v ∈ (p.reviews.map (fun r =>
      ({ userId := r.user,
         userName := (users.find? (fun u => u.id == r.user)).elim "" User.name,
         rating := r.rating, comment := r.comment,
         userPlayTime := (playersPlaytimeMap users p.id r.user).getD 0 } : ReviewView))),
      v.userPlayTime = playtimeOf users p.id v.userId := by
    intro v hv
    rcases List.mem_map.mp hv with ⟨r, hr, hre⟩
    rw [← hre]
    exact playersPlaytimeMap_getD users p.id r.user hnd
  have hperm : (reviewsWithPlaytime users p).Perm (p.reviews.map (fun r =>
      ({ userId := r.user,
         userName := (users.find? (fun u => u.id == r.user)).elim "" User.name,
         rating := r.rating, comment := r.comment,
         userPlayTime := (playersPlaytimeMap users p.id r.user).getD 0 } : ReviewView))) :=
    sortByKeyDesc_perm _ _
  have hmem : ∀ v ∈ reviewsWithPlaytime users p,
      v.userPlayTime = playtimeOf users p.id v.userId := by
    intro v hv
    exact hkey v (hperm.mem_iff.mp hv)
  refine ⟨?_, ?_, hmem⟩
  · have h1 := List.Perm.map (fun (v : ReviewView) => (v.userId, v.rating, v.comment)) hperm
    have h2 : (p.reviews.map (fun r =>
        ({ userId := r.user,
           userName := (users.find? (fun u => u.id == r.user)).elim "" User.name,
           rating := r.rating, comment := r.comment,
           userPlayTime := (playersPlaytimeMap users p.id r.user).getD 0 } : ReviewView))).map
          (fun v => (v.userId, v.rating, v.comment))
        = p.reviews.map (fun r => (r.user, r.rating, r.comment)) := by
      rw [List.map_map]
      rfl
    rw [h2] at h1
    exact h1
  · have hsorted := sortByKeyDesc_sorted (fun (v : ReviewView) => v.userPlayTime)
      (p.reviews.map (fun r =>
        ({ userId := r.user,
           userName := (users.find? (fun u => u.id == r.user)).elim "" User.name,
           rating := r.rating, comment := r.comment,
           userPlayTime := (playersPlaytimeMap users p.id r.user).getD 0 } : ReviewView)))
    refine List.Pairwise.imp_of_mem ?_ hsorted
    intro a b ha hb hr
    rw [← hmem a ha, ← hmem b hb]
    exact hr

/-- C10: the three public review projections (GET product by id, the
comments endpoint and the detailed listing) return the reviews of a game
sorted by the reviewing user's accumulated playtime on that game in
descending order, a reviewer with no ledger entry counting as playtime 0;
the comments and detailed projections also attach that playtime to every
returned review. Hypothesis: distinct user ids, as in the Mongo store. -/
theorem projections_sorted_by_playtime (users : List User) (p : Product)
    (products : List Product) (hnd : (users.map User.id).Nodup) :
    ((getProductById users p).reviews.Perm p.reviews
      ∧ (getProductById users p).reviews.Pairwise
          (fun a b => playtimeOf users p.id b.user ≤ playtimeOf users p.id a.user))
    ∧ (((getProductComments users p).comments.map
          (fun v => (v.userId, v.rating, v.comment))).Perm
          (p.reviews.map (fun r => (r.user, r.rating, r.comment)))
      ∧ (getProductComments users p).comments.Pairwise
          (fun a b => playtimeOf users p.id b.userId ≤ playtimeOf users p.id a.userId)
      ∧ ∀ v ∈ (getProductComments users p).comments,
          v.userPlayTime = playtimeOf users p.id v.userId)
    ∧ (∀ d ∈ getDetailedProducts users products, ∃ q ∈ products, d.id = q.id
      ∧ ((d.reviews.map (fun v => (v.userId, v.rating, v.comment))).Perm
            (q.reviews.map (fun r => (r.user, r.rating, r.comment)))
        ∧ d.reviews.Pairwise
            (fun a b => playtimeOf users q.id b.userId ≤ playtimeOf users q.id a.userId)
        ∧ ∀ v ∈ d.reviews, v.userPlayTime = playtimeOf users q.id v.userId)) := by
  refine ⟨⟨?_, ?_⟩, reviewsWithPlaytime_spec users p hnd, ?_⟩
  · exact sortByKeyDesc_perm _ _
  · have hsorted := sortByKeyDesc_sorted
      (fun (r : Review) => (byIdPlaytimeMap users p r.user).getD 0) p.reviews
    refine List.Pairwise.imp_of_mem ?_ hsorted
    intro a b ha hb hr
    have hmemp : ∀ x ∈ sortByKeyDesc
        (fun (r : Review) => (byIdPlaytimeMap users p r.user).getD 0) p.reviews,
        (byIdPlaytimeMap users p x.user).getD 0 = playtimeOf users p.id x.user := by
      intro x hx
      have hxm : x ∈ p.reviews := (sortByKeyDesc_perm _ _).mem_iff.mp hx
      exact byIdPlaytimeMap_getD users p x.user hnd
        (List.elem_eq_true_of_mem (List.mem_map_of_mem Review.user hxm))
    rw [← hmemp a ha, ← hmemp b hb]
    exact hr
  · intro d hd
    rcases List.mem_map.mp hd with ⟨q, hq, hde⟩
    refine ⟨q, hq, ?_, ?_⟩
    · rw [← hde]
    · rw [← hde]
      exact reviewsWithPlaytime_spec users q hnd

/-- Witness for C10: the by-id projection of the sample game is a
permutation of its stored reviews. -/
theorem projections_sorted_by_playtime_witness :
    ((getProductById [aliceSample, bobSample] gameSample).reviews).Perm
      gameSample.reviews :=
  (projections_sorted_by_playtime [aliceSample, bobSample] gameSample []
    (by decide)).1.1

end GameStore














